import Mathlib

/-!
Verification of the moth terminal coding assistant core.

Shallow embedding of the security sandbox (path resolution), the edit tool,
the bash tool command blocker, the event bus, the OpenAI-compatible streaming
adapter, and the agent loop state machine, together with theorems settling
the frozen behavioural claims.

Conventions:
* JS strings are modelled as Lean `String`/`List Char`; all inputs of interest
  are ASCII, where UTF-16 code-unit semantics and scalar-value semantics agree.
* Node's `path` module is modelled for the POSIX separator `/`.
* Loops of the source that are not structurally recursive carry an explicit
  fuel argument; fuel exhaustion is `Option.none` and marks real divergence
  of the source loop.
-/

set_option maxRecDepth 10000

namespace Moth

/-- JS `String.prototype.startsWith`, as a code-point prefix test. -/
def strStartsWith (s pre : String) : Bool :=
  pre.toList.isPrefixOf s.toList

/-- A POSIX path is absolute iff it starts with the separator. -/
def isAbsPath (s : String) : Bool :=
  strStartsWith s "/"

/-- JS `s.split(sep)` for a single-character separator. -/
def splitChAux (sep : Char) (cur : List Char) : List Char → List String
  | [] => [String.mk cur.reverse]
  | c :: t =>
    if c = sep then String.mk cur.reverse :: splitChAux sep [] t
    else splitChAux sep (c :: cur) t

def splitSegs (s : String) : List String :=
  splitChAux '/' [] s.toList

/-- Join path segments with `/`. -/
def joinSegs : List String → String
  | [] => ""
  | [s] => s
  | s :: rest => s ++ "/" ++ joinSegs rest

/-- Segment normalisation shared by Node `path.normalize`/`path.resolve`:
`acc` is the stack of kept segments in reverse order; `""` and `"."` are
dropped, `".."` pops (or is kept for relative paths that escape upward). -/
def normSegs (abs : Bool) : List String → List String → List String
  | acc, [] => acc.reverse
  | acc, s :: rest =>
    if s = "" ∨ s = "." then normSegs abs acc rest
    else if s = ".." then
      match acc with
      | top :: accTail =>
        if top = ".." then normSegs abs (".." :: top :: accTail) rest
        else normSegs abs accTail rest
      | [] => if abs then normSegs abs [] rest else normSegs abs [".."] rest
    else normSegs abs (s :: acc) rest

/-- Node `path.posix.normalize` (trailing separator preserved). -/
def pathNormalize (p : String) : String :=
  if p = "" then "."
  else
    let abs := isAbsPath p
    let trailing := "/".toList.isSuffixOf p.toList
    let core := joinSegs (normSegs abs [] (splitSegs p))
    if abs then
      if core = "" then "/"
      else if trailing then "/" ++ core ++ "/" else "/" ++ core
    else
      if core = "" then (if trailing then "./" else ".")
      else if trailing then core ++ "/" else core

/-- Node `path.posix.resolve root p` for the sandbox use: the configured
project root is itself the result of `path.resolve` at startup, hence
absolute, so no working-directory component is needed. The result carries
no trailing separator. -/
def pathResolve (root p : String) : String :=
  let joined := if isAbsPath p then p else root ++ "/" ++ p
  let core := joinSegs (normSegs (isAbsPath joined) [] (splitSegs joined))
  if isAbsPath joined then (if core = "" then "/" else "/" ++ core)
  else (if core = "" then "." else core)

/-- `resolveSafePath` from the sandbox module: resolve against the project
root, normalize, then reject anything that is not the root itself or a
prefix-descendant of `root ++ "/"` with a `PathTraversalError` (modelled as
the `Except.error` carrying the error message the constructor builds). -/
def resolveSafePath (projectRoot inputPath : String) : Except String String :=
  if ¬ (strStartsWith (pathNormalize (pathResolve projectRoot inputPath))
          (projectRoot ++ "/") = true) ∧
      pathNormalize (pathResolve projectRoot inputPath) ≠ projectRoot then
    Except.error
      ("Path \"" ++ inputPath ++ "\" resolves outside project root \"" ++ projectRoot
        ++ "\". Access denied.")
  else
    Except.ok (pathNormalize (pathResolve projectRoot inputPath))

instance : DecidableEq (Except String String) := fun a b =>
  match a, b with
  | .ok x, .ok y => if h : x = y then isTrue (by rw [h]) else isFalse (by simp [h])
  | .error x, .error y => if h : x = y then isTrue (by rw [h]) else isFalse (by simp [h])
  | .ok _, .error _ => isFalse (by simp)
  | .error _, .ok _ => isFalse (by simp)


/-! ### Edit tool (`edit_file`) -/

/-- A tool's return value; `isError` is an optional field in the source
(`isError?: boolean`), read back through `?? false`. -/
structure ToolResult where
  content : String
  isError : Option Bool := none
deriving DecidableEq, Repr

def ToolResult.failed (r : ToolResult) : Bool :=
  r.isError.getD false

/-- JS `content.indexOf(pat, i)` restricted to `i ≤ content.length`:
first index `≥ i` at which `pat` occurs, scanning `rest = content.drop i`. -/
def findIdxAux (pat : List Char) : List Char → Nat → Option Nat
  | [], i => if pat.isPrefixOf ([] : List Char) then some i else none
  | c :: t, i => if pat.isPrefixOf (c :: t) then some i else findIdxAux pat t (i + 1)

/-- The occurrence-counting loop of `editFileTool.execute`: repeatedly
`indexOf` from `searchFrom`, then resume at `idx + old.length`. The source
loop does not terminate when `old` is empty; the fuel (`content.length + 1`
at the top call) makes that case `none`. -/
def countLoop (s pat : List Char) : Nat → Nat → Nat → Option Nat
  | 0, _, _ => none
  | fuel + 1, searchFrom, cnt =>
    match findIdxAux pat (s.drop searchFrom) searchFrom with
    | none => some cnt
    | some idx => countLoop s pat fuel (idx + pat.length) (cnt + 1)

def countOccurrences (content old : String) : Option Nat :=
  countLoop content.toList old.toList (content.toList.length + 1) 0 0

/-- JS replacement-pattern expansion for `String.prototype.replace` with a
string pattern: `$$`, `$&` (match), `` $` `` (before), `$'` (after) are
special; anything else after `$` stays literal (no capture groups exist). -/
def expandDollar (pre matched post : List Char) : List Char → List Char
  | [] => []
  | '$' :: c :: t =>
    if c = '$' then '$' :: expandDollar pre matched post t
    else if c = '&' then matched ++ expandDollar pre matched post t
    else if c = Char.ofNat 96 then pre ++ expandDollar pre matched post t
    else if c = Char.ofNat 39 then post ++ expandDollar pre matched post t
    else '$' :: c :: expandDollar pre matched post t
  | c :: t => c :: expandDollar pre matched post t

/-- JS `content.replace(old, new)`: replace the first occurrence only. -/
def replaceFirst (content old new : String) : String :=
  match findIdxAux old.toList content.toList 0 with
  | none => content
  | some idx =>
    let s := content.toList
    let pre := s.take idx
    let post := s.drop (idx + old.toList.length)
    String.mk (pre ++ expandDollar pre old.toList post new.toList ++ post)

def natReprAux : Nat → Nat → List Char
  | 0, _ => []
  | fuel + 1, n =>
    let d := Char.ofNat (48 + n % 10)
    if n < 10 then [d] else natReprAux fuel (n / 10) ++ [d]

/-- Decimal rendering of a natural (JS template-literal interpolation). -/
def natRepr (n : Nat) : String :=
  String.mk (natReprAux (n + 1) n)

def intRepr (i : Int) : String :=
  if i < 0 then "-" ++ natRepr i.natAbs else natRepr i.natAbs

/-- JS `s.split("\n").length`, i.e. one more than the newline count. -/
def lineCount (s : String) : Nat :=
  s.toList.countP (fun c => c = '\n') + 1

/-- The body of `editFileTool.execute` after the sandbox resolution and the
file read both succeeded: the identical-strings guard, the uniqueness check
on `old_string`, and the atomic replacement. Returns the tool result paired
with the file content on disk afterwards; `none` is the diverging
empty-`old_string` loop. -/
def editFileApply (inputPath safePath content old new : String) :
    Option (ToolResult × String) :=
  if old = new then
    some ({ content := "old_string and new_string are identical. No change needed.",
            isError := some true }, content)
  else
    match countOccurrences content old with
    | none => none
    | some 0 =>
      some ({ content := "String not found in " ++ inputPath ++
                ". Verify the exact content including whitespace and newlines.",
              isError := some true }, content)
    | some 1 =>
      let newContent := replaceFirst content old new
      let delta : Int := (lineCount new : Int) - (lineCount old : Int)
      let deltaStr := if delta > 0 then "+" ++ intRepr delta
                      else if delta < 0 then intRepr delta else "±0"
      some ({ content := "Edited: " ++ safePath ++ " (replaced " ++
                natRepr old.toList.length ++ " → " ++ natRepr new.toList.length ++
                " chars, " ++ deltaStr ++ " lines)" }, newContent)
    | some (n + 2) =>
      some ({ content := "Found " ++ natRepr (n + 2) ++
                " occurrences of old_string in " ++ inputPath ++
                ". Must be unique — provide more surrounding context to disambiguate.",
              isError := some true }, content)


/-! ### Bash tool — destructive-command blocklist -/

/-- Syntax of the JS regular expressions used by `isBlockedCommand`:
characters, character classes, `.`, concatenation, alternation, `*`, `?`,
the zero-width word boundary `\b` and end-of-input `$`. -/
inductive Re where
  | eps
  | ch (c : Char)
  | cls (neg : Bool) (ranges : List (Char × Char))
  | anyc
  | seq (a b : Re)
  | alt (a b : Re)
  | star (a : Re)
  | opt (a : Re)
  | wordB
  | eos
deriving DecidableEq

def inRanges (c : Char) : List (Char × Char) → Bool
  | [] => false
  | (lo, hi) :: rest => if lo ≤ c ∧ c ≤ hi then true else inRanges c rest

def clsMatch (neg : Bool) (ranges : List (Char × Char)) (c : Char) : Bool :=
  if neg then !(inRanges c ranges) else inRanges c ranges

/-- JS regex word characters `[A-Za-z0-9_]`. -/
def isWordChar (c : Char) : Bool :=
  inRanges c [('a', 'z'), ('A', 'Z'), ('0', '9'), ('_', '_')]

/-- `\b` holds where word-ness differs between the previous character and
the next one (string edges count as non-word). -/
def atWordB (prev : Option Char) (s : List Char) : Bool :=
  (match prev with | none => false | some c => isWordChar c) !=
    (match s with | [] => false | c :: _ => isWordChar c)

/-- Backtracking matcher: all ways `re` can match a prefix of `s`, each
given as (last consumed character, remaining suffix). `prev` is the
character before `s`, needed for `\b`. The fuel only bounds recursion
depth; `reTest` supplies more than enough for its input. -/
def mtch : Nat → Re → Option Char → List Char → List (Option Char × List Char)
  | 0, _, _, _ => []
  | fuel + 1, re, prev, s =>
    match re with
    | .eps => [(prev, s)]
    | .ch c =>
      match s with
      | [] => []
      | x :: t => if x = c then [(some x, t)] else []
    | .cls neg rs =>
      match s with
      | [] => []
      | x :: t => if clsMatch neg rs x then [(some x, t)] else []
    | .anyc =>
      match s with
      | [] => []
      | x :: t => if x = '\n' then [] else [(some x, t)]
    | .seq a b => (mtch fuel a prev s).flatMap fun pr => mtch fuel b pr.1 pr.2
    | .alt a b => mtch fuel a prev s ++ mtch fuel b prev s
    | .opt a => (prev, s) :: mtch fuel a prev s
    | .star a =>
      (prev, s) :: ((mtch fuel a prev s).flatMap fun pr =>
        if pr.2.length < s.length then mtch fuel (.star a) pr.1 pr.2 else [])
    | .wordB => if atWordB prev s then [(prev, s)] else []
    | .eos => if s.isEmpty then [(prev, s)] else []

def searchAux (fuel : Nat) (re : Re) : Option Char → List Char → Bool
  | prev, [] => !(mtch fuel re prev []).isEmpty
  | prev, c :: t => !(mtch fuel re prev (c :: t)).isEmpty || searchAux fuel re (some c) t

/-- JS `re.test(s)`: does `re` match starting at some position of `s`? -/
def reTest (re : Re) (s : String) : Bool :=
  searchAux ((s.toList.length + 64) * 16) re none s.toList

def rstr (s : String) : Re :=
  s.toList.foldr (fun c acc => .seq (.ch c) acc) .eps

def rcat : List Re → Re
  | [] => .eps
  | [r] => r
  | r :: rest => .seq r (rcat rest)

/-- JS `\s`: whitespace class including the Unicode space separators. -/
def wsRanges : List (Char × Char) :=
  [('\t', Char.ofNat 13), (' ', ' '), (Char.ofNat 0xa0, Char.ofNat 0xa0),
   (Char.ofNat 0x1680, Char.ofNat 0x1680), (Char.ofNat 0x2000, Char.ofNat 0x200a),
   (Char.ofNat 0x2028, Char.ofNat 0x2029), (Char.ofNat 0x202f, Char.ofNat 0x202f),
   (Char.ofNat 0x205f, Char.ofNat 0x205f), (Char.ofNat 0x3000, Char.ofNat 0x3000),
   (Char.ofNat 0xfeff, Char.ofNat 0xfeff)]

def wsCls : Re := .cls false wsRanges

def sPlus : Re := .seq wsCls (.star wsCls)

def dotStar : Re := .star .anyc

def azStar : Re := .star (.cls false [('a', 'z')])

/-- The eleven destructive patterns of `isBlockedCommand`, in source
order, paired with their reasons. -/
def destructivePatterns : List (Re × String) :=
  [ (rcat [.wordB, rstr "rm", sPlus,
       .opt (rcat [.ch '-', azStar, .ch 'f', azStar, sPlus]),
       .ch '/', .alt .eos wsCls], "rm at filesystem root"),
    (rcat [.wordB, rstr "mkfs", .wordB], "filesystem formatting"),
    (rcat [.wordB, rstr "dd", sPlus, dotStar, .wordB, rstr "of=/dev/"], "raw device write"),
    (rcat [.ch ':', .ch '(', .ch ')', .ch (Char.ofNat 123), dotStar, .ch '|',
       dotStar, .ch '&', dotStar, .ch (Char.ofNat 125), .ch ';', .ch ':'], "fork bomb"),
    (rcat [.wordB,
       .alt (rstr "shutdown") (.alt (rstr "reboot") (.alt (rstr "halt") (rstr "poweroff"))),
       .wordB], "system power control"),
    (rcat [.ch '>', .star wsCls, rstr "/dev/sd", .cls false [('a', 'z')]], "raw device write"),
    (rcat [.ch '>', .star wsCls, rstr "/dev/nvme"], "raw device write"),
    (rcat [.wordB, rstr "chmod", sPlus, .opt (rcat [.ch '-', .ch 'R', sPlus]),
       .star (.cls false [('0', '7')]), sPlus, .ch '/', .alt .eos wsCls],
      "recursive permission change at root"),
    (rcat [.wordB, rstr "chown", sPlus, .opt (rcat [.ch '-', .ch 'R', sPlus]),
       dotStar, sPlus, .ch '/', .alt .eos wsCls], "recursive ownership change at root"),
    (rcat [.wordB, rstr "curl", wsCls, dotStar, .ch '|', .star wsCls,
       .alt (rstr "bash") (.alt (rstr "sh") (rstr "zsh"))], "pipe remote script to shell"),
    (rcat [.wordB, rstr "wget", wsCls, dotStar, .ch '|', .star wsCls,
       .alt (rstr "bash") (.alt (rstr "sh") (rstr "zsh"))], "pipe remote script to shell") ]

def jsToLower (s : String) : String :=
  String.mk (s.toList.map Char.toLower)

def isJsWsChar (c : Char) : Bool :=
  inRanges c wsRanges

def jsTrim (s : String) : String :=
  String.mk (((s.toList.dropWhile isJsWsChar).reverse.dropWhile isJsWsChar).reverse)

/-- `isBlockedCommand`: lowercase and trim the command, then return the
first destructive pattern's reason, or `none` if the command is allowed. -/
def isBlockedCommand (command : String) : Option String :=
  ((destructivePatterns.find? fun pr => reTest pr.1 (jsTrim (jsToLower command))).map
    fun pr => "Command blocked: " ++ pr.2 ++
      ". If this is intentional, run it directly in your terminal.")

/-- What `bashTool.execute` does before any subprocess exists: a blocked
command returns an error `ToolResult` immediately; otherwise
`spawn("bash", ["-c", command])` runs in the project root. -/
inductive BashStart where
  | blocked (result : ToolResult)
  | spawned (shell : String) (args : List String)
deriving DecidableEq

def bashExecuteStart (command : String) : BashStart :=
  match isBlockedCommand command with
  | some reason => .blocked { content := "Blocked: " ++ reason, isError := some true }
  | none => .spawned "bash" ["-c", command]


/-! ### JSON values and `JSON.parse` -/

/-- JSON values as produced by `JSON.parse`. A number keeps its integer
part and the literal fraction/exponent suffix (empty for integers), so no
floating-point rounding is modelled. Objects keep first-occurrence key
order with last-occurrence values, as JS objects built by `JSON.parse` do. -/
inductive Json where
  | null
  | bool (b : Bool)
  | num (intPart : Int) (suffix : String)
  | str (s : String)
  | arr (elems : List Json)
  | obj (fields : List (String × Json))

mutual

def Json.decEq : (a b : Json) → Decidable (a = b)
  | .null, .null => isTrue rfl
  | .bool a, .bool b =>
    if h : a = b then isTrue (by rw [h]) else isFalse (by simp [h])
  | .num i1 s1, .num i2 s2 =>
    if h : i1 = i2 ∧ s1 = s2 then isTrue (by rw [h.1, h.2]) else isFalse (by simp [h])
  | .str a, .str b =>
    if h : a = b then isTrue (by rw [h]) else isFalse (by simp [h])
  | .arr xs, .arr ys =>
    match Json.decEqList xs ys with
    | isTrue h => isTrue (by rw [h])
    | isFalse h => isFalse (by simp [h])
  | .obj fs, .obj gs =>
    match Json.decEqFields fs gs with
    | isTrue h => isTrue (by rw [h])
    | isFalse h => isFalse (by simp [h])
  | .null, .bool _ => isFalse (by simp)
  | .null, .num _ _ => isFalse (by simp)
  | .null, .str _ => isFalse (by simp)
  | .null, .arr _ => isFalse (by simp)
  | .null, .obj _ => isFalse (by simp)
  | .bool _, .null => isFalse (by simp)
  | .bool _, .num _ _ => isFalse (by simp)
  | .bool _, .str _ => isFalse (by simp)
  | .bool _, .arr _ => isFalse (by simp)
  | .bool _, .obj _ => isFalse (by simp)
  | .num _ _, .null => isFalse (by simp)
  | .num _ _, .bool _ => isFalse (by simp)
  | .num _ _, .str _ => isFalse (by simp)
  | .num _ _, .arr _ => isFalse (by simp)
  | .num _ _, .obj _ => isFalse (by simp)
  | .str _, .null => isFalse (by simp)
  | .str _, .bool _ => isFalse (by simp)
  | .str _, .num _ _ => isFalse (by simp)
  | .str _, .arr _ => isFalse (by simp)
  | .str _, .obj _ => isFalse (by simp)
  | .arr _, .null => isFalse (by simp)
  | .arr _, .bool _ => isFalse (by simp)
  | .arr _, .num _ _ => isFalse (by simp)
  | .arr _, .str _ => isFalse (by simp)
  | .arr _, .obj _ => isFalse (by simp)
  | .obj _, .null => isFalse (by simp)
  | .obj _, .bool _ => isFalse (by simp)
  | .obj _, .num _ _ => isFalse (by simp)
  | .obj _, .str _ => isFalse (by simp)
  | .obj _, .arr _ => isFalse (by simp)

def Json.decEqList : (a b : List Json) → Decidable (a = b)
  | [], [] => isTrue rfl
  | [], _ :: _ => isFalse (by simp)
  | _ :: _, [] => isFalse (by simp)
  | x :: xs, y :: ys =>
    match Json.decEq x y with
    | isFalse h => isFalse (by simp [h])
    | isTrue h1 =>
      match Json.decEqList xs ys with
      | isTrue h2 => isTrue (by rw [h1, h2])
      | isFalse h2 => isFalse (by simp [h2])

def Json.decEqFields : (a b : List (String × Json)) → Decidable (a = b)
  | [], [] => isTrue rfl
  | [], _ :: _ => isFalse (by simp)
  | _ :: _, [] => isFalse (by simp)
  | (k1, v1) :: fs, (k2, v2) :: gs =>
    if hk : k1 = k2 then
      match Json.decEq v1 v2 with
      | isFalse h => isFalse (by simp [h])
      | isTrue h1 =>
        match Json.decEqFields fs gs with
        | isTrue h2 => isTrue (by rw [hk, h1, h2])
        | isFalse h2 => isFalse (by simp [h2])
    else isFalse (by simp [hk])

end

instance : DecidableEq Json := Json.decEq

def objInsert (k : String) (v : Json) : List (String × Json) → List (String × Json)
  | [] => [(k, v)]
  | (k2, v2) :: rest =>
    if k2 = k then (k2, v) :: rest else (k2, v2) :: objInsert k v rest

/-- JS property read `j[k]`: `none` is JS `undefined`. Reading a property
of a non-object never throws here; the adapter only does so on object
payloads (a `data: null` line would throw a `TypeError` in the source and
is outside the modelled inputs). -/
def Json.get : Json → String → Option Json
  | .obj fields, k => (fields.find? fun f => f.1 = k).map (·.2)
  | _, _ => none

/-- JS `j[i]` for array index access. -/
def Json.at : Json → Nat → Option Json
  | .arr elems, i => elems.get? i
  | _, _ => none

/-- JS truthiness of a JSON value (`undefined` handled at use sites). -/
def Json.truthy : Json → Bool
  | .null => false
  | .bool b => b
  | .num i suffix =>
    ¬ (i = 0 ∧ (suffix.toList.takeWhile fun c => c ≠ 'e' ∧ c ≠ 'E').all
        fun c => ¬ ('1' ≤ c ∧ c ≤ '9'))
  | .str s => ¬ s.isEmpty
  | .arr _ => true
  | .obj _ => true

def jsonWs (c : Char) : Bool :=
  c = ' ' ∨ c = '\t' ∨ c = '\n' ∨ c = '\r'

def skipWsJ (s : List Char) : List Char :=
  s.dropWhile jsonWs

def hexVal (c : Char) : Option Nat :=
  if '0' ≤ c ∧ c ≤ '9' then some (c.toNat - 48)
  else if 'a' ≤ c ∧ c ≤ 'f' then some (c.toNat - 87)
  else if 'A' ≤ c ∧ c ≤ 'F' then some (c.toNat - 55)
  else none

def parseHex4 : List Char → Option (Nat × List Char)
  | a :: b :: c :: d :: t =>
    match hexVal a, hexVal b, hexVal c, hexVal d with
    | some x1, some x2, some x3, some x4 =>
      some ((((x1 * 16 + x2) * 16 + x3) * 16 + x4), t)
    | _, _, _, _ => none
  | _ => none

/-- U+FFFD, standing in for unpaired surrogates (JS strings may hold
them; Lean scalar strings cannot). -/
def replacementChar : Char := Char.ofNat 0xfffd

/-- Body of a JSON string after the opening quote, with the standard
escapes, `\uXXXX` and surrogate-pair combination. -/
def parseStrBody : Nat → List Char → Option (List Char × List Char)
  | 0, _ => none
  | _ + 1, [] => none
  | fuel + 1, c :: t =>
    if c = '"' then some ([], t)
    else if c.toNat < 0x20 then none
    else if c = '\\' then
      match t with
      | [] => none
      | e :: t2 =>
        let simpleEsc : Option Char :=
          if e = '"' then some '"'
          else if e = '\\' then some '\\'
          else if e = '/' then some '/'
          else if e = 'b' then some (Char.ofNat 8)
          else if e = 'f' then some (Char.ofNat 12)
          else if e = 'n' then some '\n'
          else if e = 'r' then some '\r'
          else if e = 't' then some '\t'
          else none
        match simpleEsc with
        | some ch => (parseStrBody fuel t2).map fun pr => (ch :: pr.1, pr.2)
        | none =>
          if e = 'u' then
            match parseHex4 t2 with
            | none => none
            | some (n, t3) =>
              if 0xd800 ≤ n ∧ n ≤ 0xdbff then
                match t3 with
                | '\\' :: 'u' :: rest =>
                  match parseHex4 rest with
                  | some (m, t4) =>
                    if 0xdc00 ≤ m ∧ m ≤ 0xdfff then
                      (parseStrBody fuel t4).map fun pr =>
                        (Char.ofNat (0x10000 + (n - 0xd800) * 0x400 + (m - 0xdc00)) :: pr.1,
                          pr.2)
                    else (parseStrBody fuel t3).map fun pr => (replacementChar :: pr.1, pr.2)
                  | none => (parseStrBody fuel t3).map fun pr => (replacementChar :: pr.1, pr.2)
                | _ => (parseStrBody fuel t3).map fun pr => (replacementChar :: pr.1, pr.2)
              else if 0xdc00 ≤ n ∧ n ≤ 0xdfff then
                (parseStrBody fuel t3).map fun pr => (replacementChar :: pr.1, pr.2)
              else
                (parseStrBody fuel t3).map fun pr => (Char.ofNat n :: pr.1, pr.2)
          else none
    else (parseStrBody fuel t).map fun pr => (c :: pr.1, pr.2)

def isJsonDigit (c : Char) : Bool :=
  '0' ≤ c ∧ c ≤ '9'

def digitsToNat (ds : List Char) : Nat :=
  ds.foldl (fun acc c => acc * 10 + (c.toNat - 48)) 0

/-- JSON number grammar: `-? (0 | [1-9][0-9]*) frac? exp?`; returns the
integer part and the literal fraction/exponent suffix. -/
def parseNumber (s : List Char) : Option (Int × String × List Char) :=
  let (neg, s1) : Bool × List Char :=
    match s with
    | '-' :: t => (true, t)
    | _ => (false, s)
  let intDigits : Option (List Char × List Char) :=
    match s1 with
    | '0' :: t => some (['0'], t)
    | c :: t =>
      if isJsonDigit c ∧ c ≠ '0' then some ((c :: t).span isJsonDigit) else none
    | [] => none
  match intDigits with
  | none => none
  | some (ds, rest1) =>
    let (fracLit, rest2) : List Char × List Char :=
      match rest1 with
      | '.' :: r =>
        let (fds, r2) := r.span isJsonDigit
        if fds.isEmpty then ([], '.' :: r) else ('.' :: fds, r2)
      | _ => ([], rest1)
    if rest2.length < rest1.length ∨ ¬ (rest1.head? = some '.') then
      let (expLit, rest3) : Option (List Char) × List Char :=
        match rest2 with
        | e :: r =>
          if e = 'e' ∨ e = 'E' then
            let (sgn, r1) : List Char × List Char :=
              match r with
              | '+' :: rr => (['+'], rr)
              | '-' :: rr => (['-'], rr)
              | _ => ([], r)
            let (eds, r2) := r1.span isJsonDigit
            if eds.isEmpty then (none, rest2) else (some (e :: sgn ++ eds), r2)
          else (none, rest2)
        | [] => (none, rest2)
      match expLit with
      | some el =>
        some ((if neg then -(digitsToNat ds : Int) else (digitsToNat ds : Int)),
          String.mk (fracLit ++ el), rest3)
      | none =>
        if rest2.head? = some 'e' ∨ rest2.head? = some 'E' then none
        else
          some ((if neg then -(digitsToNat ds : Int) else (digitsToNat ds : Int)),
            String.mk fracLit, rest2)
    else none

mutual

def parseValue : Nat → List Char → Option (Json × List Char)
  | 0, _ => none
  | _ + 1, [] => none
  | fuel + 1, c :: t =>
    if c = '"' then
      (parseStrBody (t.length + 1) t).map fun pr => (Json.str (String.mk pr.1), pr.2)
    else if c = Char.ofNat 123 then parseObjFields fuel (skipWsJ t) []
    else if c = '[' then parseArrElems fuel (skipWsJ t) []
    else
      match c :: t with
      | 't' :: 'r' :: 'u' :: 'e' :: r => some (Json.bool true, r)
      | 'f' :: 'a' :: 'l' :: 's' :: 'e' :: r => some (Json.bool false, r)
      | 'n' :: 'u' :: 'l' :: 'l' :: r => some (Json.null, r)
      | s =>
        (parseNumber s).map fun pr => (Json.num pr.1 pr.2.1, pr.2.2)

def parseArrElems : Nat → List Char → List Json → Option (Json × List Char)
  | 0, _, _ => none
  | fuel + 1, s, acc =>
    match s with
    | ']' :: r => if acc.isEmpty then some (Json.arr [], r) else none
    | _ =>
      match parseValue fuel s with
      | none => none
      | some (v, rest) =>
        match skipWsJ rest with
        | ',' :: r2 => parseArrElems fuel (skipWsJ r2) (v :: acc)
        | ']' :: r2 => some (Json.arr (v :: acc).reverse, r2)
        | _ => none

def parseObjFields : Nat → List Char → List (String × Json) → Option (Json × List Char)
  | 0, _, _ => none
  | fuel + 1, s, acc =>
    match s with
    | c :: r =>
      if c = Char.ofNat 125 then
        if acc.isEmpty then some (Json.obj [], r) else none
      else if c = '"' then
        match parseStrBody (r.length + 1) r with
        | none => none
        | some (keyChars, rest1) =>
          match skipWsJ rest1 with
          | ':' :: rest2 =>
            match parseValue fuel (skipWsJ rest2) with
            | none => none
            | some (v, rest3) =>
              let acc2 := objInsert (String.mk keyChars) v acc
              match skipWsJ rest3 with
              | ',' :: r2 =>
                match skipWsJ r2 with
                | '"' :: _ => parseObjFields fuel (skipWsJ r2) acc2
                | _ => none
              | r2 =>
                if r2.head? = some (Char.ofNat 125) then
                  some (Json.obj acc2, r2.tail)
                else none
          | _ => none
      else none
    | [] => none

end

/-- `JSON.parse`: parse one value surrounded by whitespace only. -/
def jsonParse (s : String) : Option Json :=
  match parseValue ((s.toList.length + 2) * 2) (skipWsJ s.toList) with
  | none => none
  | some (v, rest) => if (skipWsJ rest).isEmpty then some v else none

/-! ### OpenAI-compatible provider adapter — SSE stream normalisation -/

/-- Provider streaming events (`providers/types.ts`); usage counts are the
JSON numbers reported by the endpoint (`0` when never reported). -/
inductive ProviderEvent where
  | text_delta (text : String)
  | tool_call_start (id name : String)
  | tool_call_delta (id args : String)
  | tool_call_end (id name : String) (input : Json)
  | done (inputTokens outputTokens : Json)
  | error (name message : String)
deriving DecidableEq

/-- One entry of the adapter's pending tool-call table. -/
structure PendingTC where
  id : String
  name : String
  args : String

/-- JS `Map.set`: update in place keeps the insertion position, a new key
appends. -/
def mapSet (k : Int) (v : PendingTC) : List (Int × PendingTC) → List (Int × PendingTC)
  | [] => [(k, v)]
  | (k2, v2) :: rest =>
    if k2 = k then (k2, v) :: rest else (k2, v2) :: mapSet k v rest

def mapGet (k : Int) (m : List (Int × PendingTC)) : Option PendingTC :=
  (m.find? fun pr => pr.1 = k).map (·.2)

/-- JS `a || b` where `a` is a possibly-undefined JSON value. -/
def jsOrJ (a : Option Json) (b : Json) : Json :=
  match a with
  | some v => if v.truthy then v else b
  | none => b

/-- JS `x || dflt` for a string-typed field read. -/
def jsStrOr (v : Option Json) (dflt : String) : String :=
  match v with
  | some (.str s) => if s.isEmpty then dflt else s
  | _ => dflt

/-- JS `tc.index ?? 0` (nullish coalescing; the wire value is a number). -/
def tcIndex (tc : Json) : Int :=
  match tc.get "index" with
  | some (.num i _) => i
  | _ => 0

/-- State threaded through the SSE parsing loop of
`OpenAICompatibleProvider.streamChat`. -/
structure SSEState where
  pending : List (Int × PendingTC)
  inputTokens : Json
  outputTokens : Json
  events : List ProviderEvent

def initialSSEState : SSEState :=
  { pending := [], inputTokens := Json.num 0 "", outputTokens := Json.num 0 "",
    events := [] }

/-- Handle one entry of a `delta.tool_calls` array. -/
def handleToolCallDelta (st : SSEState) (tc : Json) : SSEState :=
  let index := tcIndex tc
  match tc.get "id" with
  | some (.str id) =>
    if ¬ id.isEmpty then
      let name := jsStrOr ((tc.get "function").bind fun f => f.get "name") ""
      let args := jsStrOr ((tc.get "function").bind fun f => f.get "arguments") ""
      let st := { st with pending := mapSet index { id, name, args } st.pending }
      if ¬ name.isEmpty then
        { st with events := st.events ++ [.tool_call_start id name] }
      else st
    else
      match mapGet index st.pending with
      | none => st
      | some pend => handleToolCallContinue st index pend tc
  | _ =>
    match mapGet index st.pending with
    | none => st
    | some pend => handleToolCallContinue st index pend tc
where
  handleToolCallContinue (st : SSEState) (index : Int) (pend : PendingTC) (tc : Json) :
      SSEState :=
    let fnName := (tc.get "function").bind fun f => f.get "name"
    let pend := match fnName with
      | some (.str n) => if ¬ n.isEmpty then { pend with name := n } else pend
      | _ => pend
    let fnArgs := (tc.get "function").bind fun f => f.get "arguments"
    match fnArgs with
    | some (.str a) =>
      if ¬ a.isEmpty then
        let pend2 := { pend with args := pend.args ++ a }
        { st with pending := mapSet index pend2 st.pending,
                  events := st.events ++ [.tool_call_delta pend2.id a] }
      else { st with pending := mapSet index pend st.pending }
    | _ => { st with pending := mapSet index pend st.pending }

/-- Handle one complete `data:` line's parsed JSON payload. -/
def handleParsed (st : SSEState) (parsed : Json) : SSEState :=
  let st :=
    match parsed.get "usage" with
    | some u =>
      if u.truthy then
        { st with
          inputTokens := jsOrJ (u.get "prompt_tokens")
            (jsOrJ (u.get "input_tokens") (Json.num 0 "")),
          outputTokens := jsOrJ (u.get "completion_tokens")
            (jsOrJ (u.get "output_tokens") (Json.num 0 "")) }
      else st
    | none => st
  match (parsed.get "choices").bind fun cs => cs.at 0 with
  | none => st
  | some choice =>
    match choice.get "delta" with
    | none => st
    | some delta =>
      if ¬ delta.truthy then st
      else
        let st :=
          match delta.get "content" with
          | some (.str s) =>
            if ¬ s.isEmpty then { st with events := st.events ++ [.text_delta s] } else st
          | _ => st
        let st :=
          match delta.get "tool_calls" with
          | some tcs =>
            if tcs.truthy then
              match tcs with
              | .arr l => l.foldl handleToolCallDelta st
              | _ => st
            else st
          | none => st
        match choice.get "finish_reason" with
        | some fr =>
          if fr.truthy then
            { st with events := st.events ++
                (st.pending.map fun pr =>
                  ProviderEvent.tool_call_end pr.2.id pr.2.name
                    ((jsonParse pr.2.args).getD (Json.obj []))) }
          else st
        | none => st

/-- Handle one line of the SSE stream: trim, skip empty / `[DONE]` /
non-`data:` lines, skip malformed JSON, else process the payload. -/
def handleLine (st : SSEState) (line : String) : SSEState :=
  let trimmed := jsTrim line
  if trimmed.isEmpty ∨ trimmed = "data: [DONE]" then st
  else if ¬ strStartsWith trimmed "data: " then st
  else
    match jsonParse (String.mk (trimmed.toList.drop 6)) with
    | none => st
    | some parsed => handleParsed st parsed

/-- One reader chunk: append to the carry buffer, split on newlines, keep
the final partial line as the new buffer, process the complete lines. -/
def handleChunk (pr : List Char × SSEState) (chunk : String) : List Char × SSEState :=
  let parts := splitChAux '\n' [] (pr.1 ++ chunk.toList)
  let buffer := (parts.getLast?.getD "").toList
  (buffer, parts.dropLast.foldl handleLine pr.2)

/-- The whole success path of `streamChat`'s SSE processing (response body
given as decoded text chunks): the per-chunk line loop, then the final
`done` event with the recorded usage. A trailing partial line left in the
buffer is discarded, as in the source. -/
def processSSE (chunks : List String) : List ProviderEvent :=
  let final := (chunks.foldl handleChunk ([], initialSSEState)).2
  final.events ++ [.done final.inputTokens final.outputTokens]

/-- SSE chunk carrying the start of one tool call whose argument text is
the fragment `{"a":1` (chunk boundary splits the arguments). -/
def sseChunkA1 : String :=
  "data: \x7b\"choices\":[\x7b\"delta\":\x7b\"tool_calls\":[\x7b\"index\":0,\"id\":\"call1\",\"function\":\x7b\"name\":\"f\",\"arguments\":\"\x7b\\\"a\\\":1\"\x7d\x7d]\x7d\x7d]\x7d\n"

/-- Second SSE chunk: the rest of the arguments (`2}`), the finish marker,
and the terminal sentinel line. -/
def sseChunkA2 : String :=
  "data: \x7b\"choices\":[\x7b\"delta\":\x7b\"tool_calls\":[\x7b\"index\":0,\"function\":\x7b\"arguments\":\"2\x7d\"\x7d\x7d]\x7d,\"finish_reason\":\"tool_calls\"\x7d]\x7d\ndata: [DONE]\n"

/-- Variant whose accumulated argument text `{oops` is not valid JSON. -/
def sseChunkB1 : String :=
  "data: \x7b\"choices\":[\x7b\"delta\":\x7b\"tool_calls\":[\x7b\"index\":0,\"id\":\"c2\",\"function\":\x7b\"name\":\"g\",\"arguments\":\"\x7bo\"\x7d\x7d]\x7d\x7d]\x7d\n"

def sseChunkB2 : String :=
  "data: \x7b\"choices\":[\x7b\"delta\":\x7b\"tool_calls\":[\x7b\"index\":0,\"function\":\x7b\"arguments\":\"ops\"\x7d\x7d]\x7d,\"finish_reason\":\"stop\"\x7d]\x7d\ndata: [DONE]\n"

/-! ### Event bus -/

inductive EventTag where
  | userInput | agentThinking | agentText | agentTextDone | agentToolRequest
  | agentToolResult | agentTurnComplete | agentError | toolApprovalRequired
  | toolApproved | toolDenied | toolExecuting | toolComplete
  | sessionStarted | sessionCleared | sessionContextTrimmed
  | systemError | systemShutdown
deriving DecidableEq

/-- The closed union of bus events (`event-bus.ts`). `Error` payloads are
their message strings; wall-clock timestamps are not modelled. Token usage
keeps the JSON numbers the provider reported. -/
inductive MothEvent where
  | userInput (message : String)
  | agentThinking
  | agentText (delta : String)
  | agentTextDone (fullText : String)
  | agentToolRequest (toolId toolName : String) (input : Json)
  | agentToolResult (toolId : String) (content : String) (isError : Bool)
  | agentTurnComplete (inputTokens outputTokens : Json)
  | agentError (message : String) (recoverable : Bool)
  | toolApprovalRequired (toolId toolName : String) (input : Json)
  | toolApproved (toolId : String)
  | toolDenied (toolId : String)
  | toolExecuting (toolId toolName : String)
  | toolComplete (toolId : String) (content : String) (isError : Bool) (durationMs : Nat)
  | sessionStarted (sessionId : String)
  | sessionCleared
  | sessionContextTrimmed (removedMessages : Nat)
  | systemError (message : String) (fatal : Bool)
  | systemShutdown (reason : String)
deriving DecidableEq

def MothEvent.tag : MothEvent → EventTag
  | .userInput _ => .userInput
  | .agentThinking => .agentThinking
  | .agentText _ => .agentText
  | .agentTextDone _ => .agentTextDone
  | .agentToolRequest _ _ _ => .agentToolRequest
  | .agentToolResult _ _ _ => .agentToolResult
  | .agentTurnComplete _ _ => .agentTurnComplete
  | .agentError _ _ => .agentError
  | .toolApprovalRequired _ _ _ => .toolApprovalRequired
  | .toolApproved _ => .toolApproved
  | .toolDenied _ => .toolDenied
  | .toolExecuting _ _ => .toolExecuting
  | .toolComplete _ _ _ _ => .toolComplete
  | .sessionStarted _ => .sessionStarted
  | .sessionCleared => .sessionCleared
  | .sessionContextTrimmed _ => .sessionContextTrimmed
  | .systemError _ _ => .systemError
  | .systemShutdown _ => .systemShutdown

/-- Behaviour of one subscribed handler on one event: return normally,
throw synchronously, or return a promise that later rejects. -/
inductive HandlerRes where
  | ok
  | threw (message : String)
  | rejectedAsync (message : String)

def HandlerRes.isThrew : HandlerRes → Bool
  | .threw _ => true
  | _ => false

/-- A bus is its subscription table: handlers per event type, in
subscription order. -/
def Bus : Type :=
  EventTag → List (MothEvent → HandlerRes)

/-- Dispatch to the handlers of one event in order, as `EventBus.emit`
does: a synchronous throw is caught and converted into an inline recursive
`emit` of a non-fatal `system:error` (`emitK`); a rejected promise's
`.catch` schedules the same re-publish for after the dispatch (second
component). Returns `none` when the inline recursion exhausts its fuel,
i.e. when the source overflows the stack. -/
def runHandlers (emitK : MothEvent → Option (List MothEvent × List MothEvent))
    (ev : MothEvent) :
    List (MothEvent → HandlerRes) → Option (List MothEvent × List MothEvent)
  | [] => some ([], [])
  | h :: rest =>
    match h ev with
    | .ok => runHandlers emitK ev rest
    | .threw m =>
      match emitK (.systemError m false) with
      | none => none
      | some pr1 =>
        (runHandlers emitK ev rest).map fun pr2 => (pr1.1 ++ pr2.1, pr1.2 ++ pr2.2)
    | .rejectedAsync m =>
      (runHandlers emitK ev rest).map fun pr2 =>
        (pr2.1, MothEvent.systemError m false :: pr2.2)

/-- `EventBus.emit`: push the event to the history, then dispatch it. The
first component is the sequence of history pushes (the emitted event, then
whatever the error conversions push recursively); the fuel bounds the
inline recursion depth of the error-conversion re-publish. -/
def emitFuel : Nat → Bus → MothEvent → Option (List MothEvent × List MothEvent)
  | 0, _, _ => none
  | fuel + 1, bus, ev =>
    (runHandlers (emitFuel fuel bus) ev (bus ev.tag)).map fun pr => (ev :: pr.1, pr.2)

/-- A bus whose only `system:error` subscriber always throws. -/
def throwingSysErrBus : Bus :=
  fun t => if t = .systemError then [fun _ => .threw "handler boom"] else []

/-- Witness bus: a throwing handler and an async-rejecting handler on
`agent:thinking`, a well-behaved `system:error` subscriber. -/
def witnessBus : Bus :=
  fun t =>
    if t = .agentThinking then
      [fun _ => .threw "boom", fun _ => .rejectedAsync "late boom"]
    else if t = .systemError then [fun _ => .ok] else []

/-! ### Agent loop — data model, context trimming, input validation -/

inductive Role where
  | system | user | assistant | tool
deriving DecidableEq

inductive ContentBlock where
  | text (t : String)
  | tool_use (id name : String) (input : Json)
  | tool_result (toolCallId : String) (content : String) (isError : Bool)
deriving DecidableEq

inductive MsgContent where
  | str (s : String)
  | blocks (bs : List ContentBlock)
deriving DecidableEq

structure ChatMessage where
  role : Role
  content : MsgContent
  toolCallId : Option String := none
deriving DecidableEq

inductive LoopState where
  | idle | calling_model | processing_tools | waiting_approval | error
deriving DecidableEq

structure AgentConfig where
  maxTokens : Nat
  maxTurns : Nat
  toolTimeoutMs : Nat
  confirmDestructive : Bool
  contextWindowTokens : Nat

def lbraceS : String := String.mk [Char.ofNat 123]

def rbraceS : String := String.mk [Char.ofNat 125]

def hexDigitChar (n : Nat) : Char :=
  if n < 10 then Char.ofNat (48 + n) else Char.ofNat (87 + n)

/-- `JSON.stringify` escaping for one character of a string literal. -/
def jsonEscapeChar (c : Char) : List Char :=
  if c = '"' then ['\\', '"']
  else if c = '\\' then ['\\', '\\']
  else if c = Char.ofNat 8 then ['\\', 'b']
  else if c = Char.ofNat 12 then ['\\', 'f']
  else if c = '\n' then ['\\', 'n']
  else if c = '\r' then ['\\', 'r']
  else if c = '\t' then ['\\', 't']
  else if c.toNat < 0x20 then
    ['\\', 'u', '0', '0', hexDigitChar (c.toNat / 16), hexDigitChar (c.toNat % 16)]
  else [c]

def jsonQuote (s : String) : String :=
  "\"" ++ String.mk (s.toList.flatMap jsonEscapeChar) ++ "\""

def joinWith (sep : String) : List String → String
  | [] => ""
  | [x] => x
  | x :: rest => x ++ sep ++ joinWith sep rest

mutual

/-- `JSON.stringify` of a JSON value (no spacing). -/
def jsonStringify : Json → String
  | .null => "null"
  | .bool b => if b then "true" else "false"
  | .num i suffix => intRepr i ++ suffix
  | .str s => jsonQuote s
  | .arr xs => "[" ++ stringifyElems xs ++ "]"
  | .obj fs => lbraceS ++ stringifyFields fs ++ rbraceS

def stringifyElems : List Json → String
  | [] => ""
  | [x] => jsonStringify x
  | x :: rest => jsonStringify x ++ "," ++ stringifyElems rest

def stringifyFields : List (String × Json) → String
  | [] => ""
  | [f] => jsonQuote f.1 ++ ":" ++ jsonStringify f.2
  | f :: rest => jsonQuote f.1 ++ ":" ++ jsonStringify f.2 ++ "," ++ stringifyFields rest

end

/-- `JSON.stringify` of one `ContentBlock`, with the TS objects' key
insertion order. -/
def stringifyBlock : ContentBlock → String
  | .text t =>
    lbraceS ++ "\"type\":\"text\",\"text\":" ++ jsonQuote t ++ rbraceS
  | .tool_use id name input =>
    lbraceS ++ "\"type\":\"tool_use\",\"id\":" ++ jsonQuote id ++ ",\"name\":" ++
      jsonQuote name ++ ",\"input\":" ++ jsonStringify input ++ rbraceS
  | .tool_result toolCallId content isError =>
    lbraceS ++ "\"type\":\"tool_result\",\"toolCallId\":" ++ jsonQuote toolCallId ++
      ",\"content\":" ++ jsonQuote content ++ ",\"isError\":" ++
      (if isError then "true" else "false") ++ rbraceS

def stringifyBlocks (bs : List ContentBlock) : String :=
  "[" ++ joinWith "," (bs.map stringifyBlock) ++ "]"

/-- `estimateTokens` in `trimContextIfNeeded`: `Math.ceil(length / 4)` of
the plain string or of `JSON.stringify(content)`. -/
def estimateTokens (msg : ChatMessage) : Nat :=
  match msg.content with
  | .str s => (s.toList.length + 3) / 4
  | .blocks bs => ((stringifyBlocks bs).toList.length + 3) / 4

def totalEstimate (history : List ChatMessage) : Nat :=
  (history.map estimateTokens).sum

/-- The trimming while-loop: drop index 1 while more than two messages
remain and the running total exceeds 80% of the budget (the float
comparison `total > budget * 0.8` taken exactly as `5*total > 4*budget`).
The fuel is the history length, never exhausted before the guard fails. -/
def trimLoop (budget : Nat) : Nat → List ChatMessage → Nat → Nat →
    List ChatMessage × Nat × Nat
  | 0, h, t, r => (h, t, r)
  | fuel + 1, h, t, r =>
    if h.length > 2 ∧ 5 * t > 4 * budget then
      match h with
      | first :: second :: rest =>
        trimLoop budget fuel (first :: rest) (t - estimateTokens second) (r + 1)
      | _ => (h, t, r)
    else (h, t, r)

/-- `AgentLoop.trimContextIfNeeded`, returning the trimmed history and the
published events. The re-insertion check mirrors the source's
`history[0] !== first` guard (never true, since the splice starts at
index 1). -/
def trimContextIfNeeded (cfg : AgentConfig) (history : List ChatMessage) :
    List ChatMessage × List MothEvent :=
  let total := totalEstimate history
  if total ≤ cfg.contextWindowTokens then (history, [])
  else
    match trimLoop cfg.contextWindowTokens history.length history total 0 with
    | (h2, _, removed) =>
      let h3 := match history.head? with
        | some first => if h2.head? ≠ some first then first :: h2 else h2
        | none => h2
      if removed > 0 then (h3, [.sessionContextTrimmed removed]) else (h3, [])

structure PropSchema where
  type : Option String

structure InputSchema where
  properties : List (String × PropSchema)
  required : Option (List String)

/-- JS `typeof` on a parsed JSON value (`null`/arrays/objects are
`"object"`). -/
def typeofJson : Json → String
  | .str _ => "string"
  | .num _ _ => "number"
  | .bool _ => "boolean"
  | .null => "object"
  | .arr _ => "object"
  | .obj _ => "object"

/-- JS `Object.entries(input)` for the inputs the loop passes (JSON
objects; arrays give index-keyed entries). -/
def entriesOf : Json → List (String × Json)
  | .obj fs => fs
  | .arr xs => xs.enum.map fun pr => (natRepr pr.1, pr.2)
  | _ => []

/-- JS `field in input` for those inputs. -/
def keyIn (k : String) : Json → Bool
  | .obj fs => fs.any fun f => f.1 = k
  | .arr xs => k = "length" ∨ (xs.enum.any fun pr => natRepr pr.1 = k)
  | _ => false

def apos : String := String.mk [Char.ofNat 39]

/-- `validateToolInput`: required-field presence (absent / `null` rejected)
then primitive-type checks for declared `string`/`number`/`boolean` fields;
extra fields are tolerated. Returns `(valid, errors)`. -/
def validateToolInput (schema : InputSchema) (input : Json) : Bool × List String :=
  let errs1 : List String :=
    match schema.required with
    | some req =>
      req.foldl (fun acc field =>
        if ¬ keyIn field input ∨ input.get field = some Json.null then
          acc ++ ["Missing required field: " ++ field]
        else acc) []
    | none => []
  let errs2 : List String :=
    (entriesOf input).foldl (fun acc kv =>
      match (schema.properties.find? fun p => p.1 = kv.1).map (·.2) with
      | none => acc
      | some ps =>
        match ps.type with
        | none => acc
        | some expected =>
          if kv.2 = Json.null then acc
          else
            let actual := typeofJson kv.2
            let acc := if expected = "string" ∧ actual ≠ "string" then
                acc ++ ["Field " ++ apos ++ kv.1 ++ apos ++ " expected string, got " ++ actual]
              else acc
            let acc := if expected = "number" ∧ actual ≠ "number" then
                acc ++ ["Field " ++ apos ++ kv.1 ++ apos ++ " expected number, got " ++ actual]
              else acc
            if expected = "boolean" ∧ actual ≠ "boolean" then
              acc ++ ["Field " ++ apos ++ kv.1 ++ apos ++ " expected boolean, got " ++ actual]
            else acc) []
  let errors := errs1 ++ errs2
  (errors.isEmpty, errors)

/-! ### Agent loop — tool execution and the message-processing loop -/

structure ToolSpec where
  name : String
  description : String
  inputSchema : InputSchema
  requiresConfirmation : Bool

/-- How one tool execution resolves once cleared to run: the tool's own
result, the timeout racing it, or an unexpected exception. -/
inductive ExecOutcome where
  | success (r : ToolResult)
  | timeout
  | threw (message : String)

/-- Environment of one `executeTool` call: the approval decision that the
`tool:approved` / `tool:denied` event will deliver, the execution outcome,
and the elapsed wall time observed at completion. -/
structure ExecEnv where
  approvalDecision : Bool
  outcome : ExecOutcome
  durationMs : Nat

structure LoopSt where
  history : List ChatMessage
  state : LoopState
  totalTokensIn : Int
  totalTokensOut : Int
deriving DecidableEq

/-- Arithmetic view of a JSON number where the source does `+=` on it
(token counts are integers in practice). -/
def jsonNumToInt : Json → Int
  | .num i _ => i
  | _ => 0

/-- `AgentLoop.executeTool`: unknown tool and schema-validation failures
return error results with no execution; a confirmation-required tool (with
confirmation enabled) transitions to `waiting_approval`, publishes the
approval request and awaits the decision; then the execution races the
timeout. Every terminal branch publishes one `tool:complete`. -/
def executeToolM (cfg : AgentConfig) (tools : List ToolSpec)
    (toolId toolName : String) (input : Json) (env : ExecEnv) (st : LoopSt) :
    ToolResult × LoopSt × List MothEvent :=
  match tools.find? fun t => t.name = toolName with
  | none =>
    let result : ToolResult := { content := "Unknown tool: " ++ toolName, isError := some true }
    (result, st, [.toolComplete toolId result.content true 0])
  | some tool =>
    match validateToolInput tool.inputSchema input with
    | (valid, errors) =>
      if ¬ valid then
        let result : ToolResult :=
          { content := "Invalid input for " ++ toolName ++ ": " ++ joinWith ", " errors,
            isError := some true }
        (result, st, [.toolComplete toolId result.content true 0])
      else
        let (st, approvalEvs, denied) : LoopSt × List MothEvent × Bool :=
          if tool.requiresConfirmation ∧ cfg.confirmDestructive then
            ({ st with state := .waiting_approval },
              [MothEvent.toolApprovalRequired toolId toolName input],
              !env.approvalDecision)
          else (st, [], false)
        if denied then
          let result : ToolResult :=
            { content := "Tool execution denied by user.", isError := some true }
          (result, st, approvalEvs ++ [.toolComplete toolId result.content true 0])
        else
          let execEvs := [MothEvent.toolExecuting toolId toolName]
          match env.outcome with
          | .success r =>
            (r, st, approvalEvs ++ execEvs ++
              [.toolComplete toolId r.content (r.isError.getD false) env.durationMs])
          | .timeout =>
            let msg := "Tool " ++ toolName ++ " timed out after " ++
              natRepr cfg.toolTimeoutMs ++ "ms"
            let result : ToolResult := { content := "Tool error: " ++ msg, isError := some true }
            (result, st, approvalEvs ++ execEvs ++
              [.toolComplete toolId result.content true env.durationMs])
          | .threw m =>
            let result : ToolResult := { content := "Tool error: " ++ m, isError := some true }
            (result, st, approvalEvs ++ execEvs ++
              [.toolComplete toolId result.content true env.durationMs])

/-- Outcome of consuming one provider stream. -/
inductive StreamOutcome where
  | completed (text : String) (toolCalls : List (String × String × Json))
      (usage : Json × Json)
  | failed (name message : String)

/-- The `for await` body of `callModel`: accumulate text deltas and
completed tool calls, record usage from `done`, stop at an `error` event
(thrown in the source); `tool_call_start`/`tool_call_delta` fall through
the switch. -/
def streamLoop : List ProviderEvent → String → List (String × String × Json) →
    Json × Json → List MothEvent → StreamOutcome × List MothEvent
  | [], text, tcs, usage, evs => (.completed text tcs usage, evs)
  | e :: rest, text, tcs, usage, evs =>
    match e with
    | .text_delta t => streamLoop rest (text ++ t) tcs usage (evs ++ [.agentText t])
    | .tool_call_end id name input =>
      streamLoop rest text (tcs ++ [(id, name, input)]) usage
        (evs ++ [.agentToolRequest id name input])
    | .done i o => streamLoop rest text tcs (i, o) evs
    | .error name msg => (.failed name msg, evs)
    | _ => streamLoop rest text tcs usage evs

def strIncludes (s sub : String) : Bool :=
  (findIdxAux sub.toList s.toList 0).isSome

/-- `AgentLoop.callModel` over a finished provider stream: returns the
assembled content blocks (appended to history as the assistant message) or
`none` after an error, with the published events and state updates. -/
def callModel (st : LoopSt) (stream : List ProviderEvent) :
    Option (List ContentBlock) × LoopSt × List MothEvent :=
  let st0 := { st with state := .calling_model }
  match streamLoop stream "" [] (Json.num 0 "", Json.num 0 "") [] with
  | (.failed name message, evsStream) =>
    if name = "AbortError" then
      (none, { st0 with state := .idle },
        [MothEvent.agentThinking] ++ evsStream ++ [.agentError "Request cancelled." true])
    else
      let lower := jsToLower message
      let isRateLimit := strIncludes lower "rate" ∨ strIncludes lower "429" ∨
        strIncludes lower "too many"
      let isAuthError := strIncludes lower "authentication" ∨ strIncludes lower "401" ∨
        (strIncludes lower "invalid" ∧ strIncludes lower "key")
      let emsg := if isRateLimit then "Rate limited. Wait a moment and try again."
        else if isAuthError then "API key is invalid or expired. Check your key and try again."
        else message
      (none, { st0 with state := .error },
        [MothEvent.agentThinking] ++ evsStream ++ [.agentError emsg (¬ isAuthError)])
  | (.completed text tcs usage, evsStream) =>
    let doneEvs := if ¬ text.isEmpty then [MothEvent.agentTextDone text] else []
    let blocks := (if ¬ text.isEmpty then [ContentBlock.text text] else []) ++
      (tcs.map fun tc => ContentBlock.tool_use tc.1 tc.2.1 tc.2.2)
    let st1 := { st0 with
      totalTokensIn := st0.totalTokensIn + jsonNumToInt usage.1,
      totalTokensOut := st0.totalTokensOut + jsonNumToInt usage.2,
      history := st0.history ++ [{ role := .assistant, content := .blocks blocks }] }
    (some blocks, st1,
      [MothEvent.agentThinking] ++ evsStream ++ doneEvs ++
        [.agentTurnComplete usage.1 usage.2])

/-- Sequential execution of one turn's tool calls, in request order,
collecting the `tool_result` blocks. `ti` numbers the executions for the
oracle `envs`. -/
def execSeq (cfg : AgentConfig) (tools : List ToolSpec) (envs : Nat → ExecEnv) :
    List (String × String × Json) → LoopSt → Nat →
    LoopSt × List MothEvent × List ContentBlock × Nat
  | [], st, ti => (st, [], [], ti)
  | tu :: rest, st, ti =>
    match executeToolM cfg tools tu.1 tu.2.1 tu.2.2 (envs ti) st with
    | (result, st2, evs1) =>
      let block := ContentBlock.tool_result tu.1 result.content (result.isError.getD false)
      match execSeq cfg tools envs rest st2 (ti + 1) with
      | (st3, evs2, blocks, ti2) => (st3, evs1 ++ evs2, block :: blocks, ti2)

/-- The `while (turnsRemaining > 0)` loop of `processMessage`; returns the
final `turnsRemaining` together with the state and events. `mi` numbers
the model calls for the `provider` oracle. -/
def runTurns (cfg : AgentConfig) (tools : List ToolSpec)
    (provider : Nat → List ProviderEvent) (envs : Nat → ExecEnv) :
    Nat → Nat → Nat → LoopSt → List MothEvent → Nat × LoopSt × List MothEvent
  | 0, _, _, st, evs => (0, st, evs)
  | n + 1, mi, ti, st, evs =>
    match callModel st (provider mi) with
    | (none, st2, evs2) => (n, st2, evs ++ evs2)
    | (some blocks, st2, evs2) =>
      let toolUses := blocks.filterMap fun b =>
        match b with
        | .tool_use id name input => some (id, name, input)
        | _ => none
      if toolUses.isEmpty then
        (n, { st2 with state := .idle }, evs ++ evs2)
      else
        let st3 := { st2 with state := .processing_tools }
        match execSeq cfg tools envs toolUses st3 ti with
        | (st4, evs3, resultBlocks, ti2) =>
          let st5 := { st4 with
            history := st4.history ++ [{ role := .user, content := .blocks resultBlocks }] }
          runTurns cfg tools provider envs n (mi + 1) ti2 st5 (evs ++ evs2 ++ evs3)

/-- `AgentLoop.processMessage`: reject while not idle; else append the
user message, trim, then loop up to `maxTurns` model/tool rounds; emit the
max-turns error when the ceiling was exhausted, and return to idle. -/
def processMessage (cfg : AgentConfig) (tools : List ToolSpec)
    (provider : Nat → List ProviderEvent) (envs : Nat → ExecEnv)
    (st : LoopSt) (userMessage : String) : LoopSt × List MothEvent :=
  if st.state ≠ .idle then
    (st, [.agentError "Agent is busy. Wait for current turn to complete." true])
  else
    let st1 := { st with
      history := st.history ++ [({ role := .user, content := .str userMessage } : ChatMessage)] }
    match trimContextIfNeeded cfg st1.history with
    | (h2, evsTrim) =>
      let st2 := { st1 with history := h2 }
      match runTurns cfg tools provider envs cfg.maxTurns 0 0 st2 [] with
      | (turnsRemaining, st3, evs) =>
        let evsMax := if turnsRemaining = 0 then
            [MothEvent.agentError
              ("Hit maximum turns (" ++ natRepr cfg.maxTurns ++
                "). Stopping to prevent infinite loop.") true]
          else []
        ({ st3 with state := .idle }, evsTrim ++ evs ++ evsMax)

/-! ### Concrete scenario instances -/

def isToolCompleteE : MothEvent → Bool
  | .toolComplete _ _ _ _ => true
  | _ => false

def isAgentErrorE : MothEvent → Bool
  | .agentError _ _ => true
  | _ => false

/-- The recoverable max-turns circuit-breaker event for a given ceiling. -/
def isMaxTurnsErrorE (maxTurns : Nat) : MothEvent → Bool
  | .agentError m r =>
    (if m = "Hit maximum turns (" ++ natRepr maxTurns ++
        "). Stopping to prevent infinite loop." then true else false) && r
  | _ => false

def isAssistantMsg (m : ChatMessage) : Bool :=
  if m.role = .assistant then true else false

/-- A `user`-role history message wrapping (only) `tool_result` blocks. -/
def isToolResultWrapper (m : ChatMessage) : Bool :=
  (if m.role = .user then true else false) &&
    (match m.content with
     | .blocks bs =>
       !bs.isEmpty && bs.all fun b =>
         match b with
         | .tool_result _ _ _ => true
         | _ => false
     | _ => false)

/-- maxTurns = 2 configuration of the turn-ceiling scenario. -/
def cfg5 : AgentConfig :=
  { maxTokens := 8192, maxTurns := 2, toolTimeoutMs := 120000,
    confirmDestructive := true, contextWindowTokens := 180000 }

/-- A provider whose every streamed turn yields exactly one tool call and
no text. -/
def provider5 : Nat → List ProviderEvent := fun _ =>
  [.tool_call_end "c1" "t" (Json.obj []), .done (.num 1 "") (.num 2 "")]

def envs5 : Nat → ExecEnv := fun _ =>
  { approvalDecision := true, outcome := .success { content := "" }, durationMs := 0 }

def idleSt : LoopSt :=
  { history := [], state := .idle, totalTokensIn := 0, totalTokensOut := 0 }

def busySt : LoopSt :=
  { history := [], state := .calling_model, totalTokensIn := 0, totalTokensOut := 0 }

/-- The turn-ceiling scenario run. -/
def c5Run : LoopSt × List MothEvent :=
  processMessage cfg5 [] provider5 envs5 idleSt "go"

/-- A 600-character message: 150 estimated tokens. -/
def bigMsg : ChatMessage :=
  { role := .user, content := .str (String.mk (List.replicate 600 'a')) }

def trimCfgSmall : AgentConfig :=
  { maxTokens := 8192, maxTurns := 25, toolTimeoutMs := 120000,
    confirmDestructive := true, contextWindowTokens := 100 }

def wCfg : AgentConfig :=
  { maxTokens := 8192, maxTurns := 25, toolTimeoutMs := 120000,
    confirmDestructive := true, contextWindowTokens := 10 }

def wAnchor : ChatMessage := { role := .user, content := .str "aaaa" }

def wBig : ChatMessage := { role := .user, content := .str (String.mk (List.replicate 40 'b')) }

def wEnd : ChatMessage := { role := .user, content := .str "aaaaaaaa" }

def wHistory : List ChatMessage := [wAnchor, wBig, wBig, wEnd]

/-! ## Theorems -/

theorem strStartsWith_trans {a b c : String} (h1 : strStartsWith b a = true)
    (h2 : strStartsWith c b = true) : strStartsWith c a = true := by
  simp only [strStartsWith, List.isPrefixOf_iff_prefix] at *
  exact h1.trans h2

theorem toList_append (a b : String) : (a ++ b).toList = a.toList ++ b.toList := rfl

theorem strStartsWith_append_extend {a b c : String} (h : strStartsWith b a = true) :
    strStartsWith (b ++ c) a = true := by
  simp only [strStartsWith, List.isPrefixOf_iff_prefix, toList_append] at *
  exact h.trans (List.prefix_append _ _)

example : resolveSafePath "/proj" "a.txt" = Except.ok "/proj/a.txt" := by decide

example : (resolveSafePath "/proj" "../etc/passwd").isOk = false := by decide

example : resolveSafePath "/proj" "sub/../b" = Except.ok "/proj/b" := by decide

example : resolveSafePath "/proj" "/proj" = Except.ok "/proj" := by decide

/-- C1: for every configured project root and every input path,
`resolveSafePath` either throws `PathTraversalError` or returns a
normalized path that equals the root or extends `root ++ "/"` — and that
returned path is absolute whenever the root is (which `setProjectRoot`
guarantees, since `path.resolve` output is absolute). -/
theorem resolveSafePath_confined (root p out : String)
    (hroot : strStartsWith root "/" = true)
    (h : resolveSafePath root p = Except.ok out) :
    (out = root ∨ strStartsWith out (root ++ "/") = true) ∧
      strStartsWith out "/" = true ∧ out = pathNormalize (pathResolve root p) := by
  unfold resolveSafePath at h
  split at h
  · exact absurd h (by simp)
  · next hc =>
    rw [not_and_or, not_not] at hc
    simp only [Except.ok.injEq] at h
    subst h
    have hdisj : pathNormalize (pathResolve root p) = root ∨
        strStartsWith (pathNormalize (pathResolve root p)) (root ++ "/") = true := by
      rcases hc with hA | hB
      · exact Or.inr hA
      · exact Or.inl (of_not_not hB)
    refine ⟨hdisj, ?_, rfl⟩
    rcases hdisj with hEq | hPre
    · rw [hEq]; exact hroot
    · exact strStartsWith_trans (strStartsWith_append_extend hroot) hPre

/-- Witness for `resolveSafePath_confined` at root `/proj`, input `a.txt`. -/
theorem resolveSafePath_confined_witness :
    strStartsWith "/proj" "/" = true ∧
      (("/proj/a.txt" = "/proj" ∨ strStartsWith "/proj/a.txt" ("/proj" ++ "/") = true) ∧
        strStartsWith "/proj/a.txt" "/" = true ∧
        "/proj/a.txt" = pathNormalize (pathResolve "/proj" "a.txt")) :=
  ⟨by decide, resolveSafePath_confined "/proj" "a.txt" "/proj/a.txt" (by decide) (by decide)⟩
theorem findIdxAux_ge {pat rest : List Char} {i j : Nat}
    (h : findIdxAux pat rest i = some j) : i ≤ j := by
  induction rest generalizing i with
  | nil =>
    unfold findIdxAux at h
    split at h
    · simp at h; omega
    · simp at h
  | cons c t ih =>
    unfold findIdxAux at h
    split at h
    · simp at h; omega
    · have := ih h; omega

theorem findIdxAux_le {pat rest : List Char} {i j : Nat}
    (h : findIdxAux pat rest i = some j) : j ≤ i + rest.length := by
  induction rest generalizing i with
  | nil =>
    unfold findIdxAux at h
    split at h
    · simp at h; omega
    · simp at h
  | cons c t ih =>
    unfold findIdxAux at h
    split at h
    · simp at h; simp; omega
    · have := ih h; simp; omega

theorem findIdxAux_match {pat rest : List Char} {i j : Nat}
    (h : findIdxAux pat rest i = some j) :
    pat.isPrefixOf (rest.drop (j - i)) = true := by
  induction rest generalizing i with
  | nil =>
    unfold findIdxAux at h
    split at h
    · next hp => simp at h; subst h; simpa using hp
    · simp at h
  | cons c t ih =>
    unfold findIdxAux at h
    split at h
    · next hp => simp at h; subst h; simpa using hp
    · next hp =>
      have hge := findIdxAux_ge h
      have := ih h
      have hdrop : (c :: t).drop (j - i) = t.drop (j - (i + 1)) := by
        have : j - i = (j - (i + 1)) + 1 := by omega
        rw [this, List.drop_succ_cons]
      rw [hdrop]
      exact this

theorem findIdxAux_bound {s pat : List Char} {searchFrom j : Nat}
    (h : findIdxAux pat (s.drop searchFrom) searchFrom = some j)
    (hq : searchFrom ≤ s.length) :
    searchFrom ≤ j ∧ j + pat.length ≤ s.length := by
  have hge := findIdxAux_ge h
  have hle := findIdxAux_le h
  rw [List.length_drop] at hle
  have hpre := findIdxAux_match h
  rw [List.drop_drop] at hpre
  have hX : searchFrom + (j - searchFrom) = j := by omega
  rw [hX] at hpre
  have hpre' := List.isPrefixOf_iff_prefix.mp hpre
  have hlen := hpre'.length_le
  rw [List.length_drop] at hlen
  constructor
  · exact hge
  · omega

theorem countLoop_isSome {s pat : List Char} (hpat : pat ≠ []) :
    ∀ fuel searchFrom cnt, searchFrom ≤ s.length →
      s.length + 1 - searchFrom ≤ fuel →
      (countLoop s pat fuel searchFrom cnt).isSome = true := by
  intro fuel
  induction fuel with
  | zero => intro searchFrom cnt h1 h2; omega
  | succ f ih =>
    intro searchFrom cnt h1 h2
    unfold countLoop
    cases hfind : findIdxAux pat (s.drop searchFrom) searchFrom with
    | none => simp
    | some idx =>
      simp only
      have hb := findIdxAux_bound hfind h1
      have hplen : 1 ≤ pat.length := by
        cases pat with
        | nil => exact absurd rfl hpat
        | cons _ _ => simp
      exact ih (idx + pat.length) (cnt + 1) (by omega) (by omega)

theorem toList_ne_nil_of_ne_empty {s : String} (h : s ≠ "") : s.toList ≠ [] := by
  intro hnil
  apply h
  cases s with
  | mk data =>
    have hd : data = [] := hnil
    subst hd
    rfl

theorem countOccurrences_isSome {content old : String} (h : old ≠ "") :
    (countOccurrences content old).isSome = true :=
  countLoop_isSome (toList_ne_nil_of_ne_empty h) _ 0 0 (by omega) (by omega)

example : countOccurrences "aaa" "aa" = some 1 := by decide

example : countOccurrences "abab" "ab" = some 2 := by decide

example : countOccurrences "abc" "zz" = some 0 := by decide

/-- C2 counterexample: `old_string` occurs exactly once, yet the edit fails,
because the tool rejects `old_string = new_string` before checking
uniqueness — so "succeeds iff the search string occurs exactly once" does
not hold as stated. -/
theorem editFile_once_but_fails :
    countOccurrences "x" "x" = some 1 ∧
      editFileApply "f.txt" "/p/f.txt" "x" "x" "x" =
        some ({ content := "old_string and new_string are identical. No change needed.",
                isError := some true }, "x") := by
  decide

/-- C2 (amended): for a nonempty `old_string` (the source loop diverges on
an empty one), the edit succeeds iff `old_string` occurs exactly once in
the file AND differs from `new_string`; zero or several occurrences fail,
and every failing outcome leaves the file content unchanged. -/
theorem editFile_success_iff (inputPath safePath content old new : String)
    (h : old ≠ "") :
    ∃ r final, editFileApply inputPath safePath content old new = some (r, final) ∧
      (r.failed = false ↔ (countOccurrences content old = some 1 ∧ old ≠ new)) ∧
      (r.failed = true → final = content) := by
  by_cases hon : old = new
  · refine ⟨_, _, by unfold editFileApply; rw [if_pos hon], ?_, fun _ => rfl⟩
    constructor
    · intro hfail; exact absurd hfail (by simp [ToolResult.failed])
    · rintro ⟨-, hne⟩; exact absurd hon hne
  · have hsome := @countOccurrences_isSome content old h
    rcases Option.isSome_iff_exists.mp hsome with ⟨k, hk⟩
    match k, hk with
    | 0, hk =>
      refine ⟨_, _, by unfold editFileApply; rw [if_neg hon, hk], ?_, fun _ => rfl⟩
      constructor
      · intro hfail; exact absurd hfail (by simp [ToolResult.failed])
      · rintro ⟨h1, -⟩; rw [hk] at h1; simp at h1
    | 1, hk =>
      refine ⟨_, _, by unfold editFileApply; rw [if_neg hon, hk], ?_, ?_⟩
      · constructor
        · intro _; exact ⟨hk, hon⟩
        · intro _; rfl
      · intro hfail; exact absurd hfail (by simp [ToolResult.failed])
    | n + 2, hk =>
      refine ⟨_, _, by unfold editFileApply; rw [if_neg hon, hk], ?_, fun _ => rfl⟩
      constructor
      · intro hfail; exact absurd hfail (by simp [ToolResult.failed])
      · rintro ⟨h1, -⟩; rw [hk] at h1; simp at h1

/-- Witness for `editFile_success_iff`: file `hello`, unique `ell`. -/
theorem editFile_success_iff_witness :
    ("ell" : String) ≠ "" ∧
      (∃ r final, editFileApply "f.txt" "/p/f.txt" "hello" "ell" "ELL" = some (r, final) ∧
        (r.failed = false ↔ (countOccurrences "hello" "ell" = some 1 ∧ ("ell" : String) ≠ "ELL")) ∧
        (r.failed = true → final = "hello")) :=
  ⟨by decide, editFile_success_iff "f.txt" "/p/f.txt" "hello" "ell" "ELL" (by decide)⟩

/-- C10: occurrences are counted non-overlapping and left-to-right — in
`aaa` the string `aa` is counted exactly once, the edit is treated as
unique, and the leftmost match is replaced (no "not unique" failure). -/
theorem editFile_overlapping_counted_once :
    countOccurrences "aaa" "aa" = some 1 ∧
      editFileApply "f.txt" "/p/f.txt" "aaa" "aa" "b" =
        some ({ content := "Edited: /p/f.txt (replaced 2 → 1 chars, ±0 lines)" }, "ba") := by
  decide
/-- C3: `rm -rf /` is rejected with an error result before any subprocess
is spawned, while `echo hi | grep h` passes the blocklist and reaches the
spawn call. -/
theorem bash_blocklist_scenarios :
    bashExecuteStart "rm -rf /" =
      .blocked { content := "Blocked: Command blocked: rm at filesystem root. If this is intentional, run it directly in your terminal.",
                 isError := some true } ∧
      bashExecuteStart "echo hi | grep h" = .spawned "bash" ["-c", "echo hi | grep h"] := by
  decide

/-- C7: a tool call whose argument text arrives split across SSE chunk
boundaries is accumulated per index; the finish marker produces exactly one
`tool_call_end` whose input is the JSON parse of the concatenation
(`{"a":1` + `2}` parses to `{a: 12}`); when the accumulated text is not
valid JSON the emitted input is the empty object and the stream still ends
normally with its `done` event. -/
theorem sse_split_tool_call_args :
    processSSE [sseChunkA1, sseChunkA2] =
      [.tool_call_start "call1" "f",
       .tool_call_delta "call1" "2\x7d",
       .tool_call_end "call1" "f" (.obj [("a", .num 12 "")]),
       .done (.num 0 "") (.num 0 "")] ∧
      processSSE [sseChunkB1, sseChunkB2] =
        [.tool_call_start "c2" "g",
         .tool_call_delta "c2" "ops",
         .tool_call_end "c2" "g" (.obj []),
         .done (.num 0 "") (.num 0 "")] :=
  ⟨rfl, rfl⟩

theorem emitFuel_throwing_none (n : Nat) :
    emitFuel n throwingSysErrBus (.systemError "handler boom" false) = none := by
  induction n with
  | zero => rfl
  | succ n ih => simp [emitFuel, runHandlers, throwingSysErrBus, MothEvent.tag, ih]

/-- C6 counterexample: on a bus whose `system:error` subscriber itself
throws, emitting a `system:error` event never terminates — the
catch-and-re-publish recursion is unbounded, at every recursion depth the
dispatch is still unfinished. So "emit terminates even when a handler
subscribed to system:error itself throws" is false of the code. -/
theorem emit_sysErr_handler_throw_diverges :
    ¬ ∃ n out, emitFuel n throwingSysErrBus (.systemError "handler boom" false) = some out := by
  rintro ⟨n, out, h⟩
  rw [emitFuel_throwing_none n] at h
  exact absurd h (by simp)

theorem runHandlers_noThrow (emitK : MothEvent → Option (List MothEvent × List MothEvent))
    (ev2 : MothEvent) (hs : List (MothEvent → HandlerRes))
    (hok : ∀ h ∈ hs, (h ev2).isThrew = false) :
    ∃ pr, runHandlers emitK ev2 hs = some pr := by
  induction hs with
  | nil => exact ⟨([], []), rfl⟩
  | cons h rest ih =>
    have hh := hok h (List.mem_cons_self h rest)
    rcases ih (fun g hg => hok g (List.mem_cons_of_mem h hg)) with ⟨pr, hpr⟩
    cases hres : h ev2 with
    | ok => exact ⟨pr, by simpa [runHandlers, hres] using hpr⟩
    | threw m => rw [hres] at hh; simp [HandlerRes.isThrew] at hh
    | rejectedAsync m =>
      exact ⟨(pr.1, MothEvent.systemError m false :: pr.2),
        by simp [runHandlers, hres, hpr]⟩

theorem emitFuel_one_sysErr (bus : Bus)
    (H : ∀ h ∈ bus EventTag.systemError, ∀ m,
      (h (MothEvent.systemError m false)).isThrew = false) (m : String) :
    ∃ pr, emitFuel 1 bus (.systemError m false) = some pr ∧
      MothEvent.systemError m false ∈ pr.1 := by
  rcases runHandlers_noThrow (emitFuel 0 bus) (.systemError m false)
      (bus EventTag.systemError) (fun h hm => H h hm m) with ⟨pr, hpr⟩
  refine ⟨(MothEvent.systemError m false :: pr.1, pr.2), ?_, List.mem_cons_self _ _⟩
  show (runHandlers (emitFuel 0 bus) (.systemError m false)
      (bus EventTag.systemError)).map _ = _
  rw [hpr]
  rfl

theorem runHandlers_depth2 (bus : Bus) (ev : MothEvent)
    (H : ∀ h ∈ bus EventTag.systemError, ∀ m,
      (h (MothEvent.systemError m false)).isThrew = false)
    (hs : List (MothEvent → HandlerRes)) :
    ∃ pr, runHandlers (emitFuel 1 bus) ev hs = some pr ∧
      (∀ h ∈ hs, ∀ m, h ev = .threw m → MothEvent.systemError m false ∈ pr.1) ∧
      (∀ h ∈ hs, ∀ m, h ev = .rejectedAsync m → MothEvent.systemError m false ∈ pr.2) := by
  induction hs with
  | nil =>
    refine ⟨([], []), rfl, ?_, ?_⟩ <;> (intro h hm; simp at hm)
  | cons h rest ih =>
    rcases ih with ⟨pr, hpr, hmem, hmemA⟩
    cases hres : h ev with
    | ok =>
      refine ⟨pr, by simp [runHandlers, hres, hpr], ?_, ?_⟩ <;>
        (intro g hg m hgm
         rcases List.mem_cons.mp hg with hEq | hIn
         · subst hEq; rw [hres] at hgm; exact absurd hgm (by simp)
         · first
             | exact hmem g hIn m hgm
             | exact hmemA g hIn m hgm)
    | threw m0 =>
      rcases emitFuel_one_sysErr bus H m0 with ⟨pr1, hpr1, hmem1⟩
      refine ⟨(pr1.1 ++ pr.1, pr1.2 ++ pr.2),
        by simp [runHandlers, hres, hpr1, hpr], ?_, ?_⟩
      · intro g hg m hgm
        rcases List.mem_cons.mp hg with hEq | hIn
        · subst hEq
          rw [hres] at hgm
          have : m = m0 := by cases hgm; rfl
          subst this
          exact List.mem_append_left _ hmem1
        · exact List.mem_append_right _ (hmem g hIn m hgm)
      · intro g hg m hgm
        rcases List.mem_cons.mp hg with hEq | hIn
        · subst hEq; rw [hres] at hgm; exact absurd hgm (by simp)
        · exact List.mem_append_right _ (hmemA g hIn m hgm)
    | rejectedAsync m0 =>
      refine ⟨(pr.1, MothEvent.systemError m0 false :: pr.2),
        by simp [runHandlers, hres, hpr], ?_, ?_⟩
      · intro g hg m hgm
        rcases List.mem_cons.mp hg with hEq | hIn
        · subst hEq; rw [hres] at hgm; exact absurd hgm (by simp)
        · exact hmem g hIn m hgm
      · intro g hg m hgm
        rcases List.mem_cons.mp hg with hEq | hIn
        · subst hEq
          rw [hres] at hgm
          have : m = m0 := by cases hgm; rfl
          subst this
          exact List.mem_cons_self _ _
        · exact List.mem_cons_of_mem _ (hmemA g hIn m hgm)

/-- C6 (amended): a handler exception never propagates to the publisher.
A synchronous throw is converted inline into a non-fatal `system:error`
re-published on the same bus (it appears among the dispatch's history
pushes, `out.1`); a rejected promise's failure is converted into the same
non-fatal `system:error` re-publish, scheduled by its `.catch` for after
the dispatch returns (`out.2`). `emit` itself terminates (at conversion
depth 2) provided no handler subscribed to `system:error` throws on
`system:error` events — if one does, the inline re-publish recursion is
unbounded (`emit_sysErr_handler_throw_diverges`). -/
theorem emit_converts_handler_errors (bus : Bus) (ev : MothEvent)
    (H : ∀ h ∈ bus EventTag.systemError, ∀ m,
      (h (MothEvent.systemError m false)).isThrew = false) :
    ∃ out, emitFuel 2 bus ev = some out ∧
      (∀ h ∈ bus ev.tag, ∀ m, h ev = .threw m →
        MothEvent.systemError m false ∈ out.1) ∧
      (∀ h ∈ bus ev.tag, ∀ m, h ev = .rejectedAsync m →
        MothEvent.systemError m false ∈ out.2) := by
  rcases runHandlers_depth2 bus ev H (bus ev.tag) with ⟨pr, hpr, hmem, hmemA⟩
  refine ⟨(ev :: pr.1, pr.2), ?_, ?_, ?_⟩
  · show (runHandlers (emitFuel 1 bus) ev (bus ev.tag)).map _ = _
    rw [hpr]
    rfl
  · intro h hm m hthrew
    exact List.mem_cons_of_mem _ (hmem h hm m hthrew)
  · intro h hm m hrej
    exact hmemA h hm m hrej

/-- Witness for `emit_converts_handler_errors`: a bus with a throwing
handler and an async-rejecting handler on `agent:thinking` and a
well-behaved `system:error` subscriber. -/
theorem emit_converts_handler_errors_witness :
    ∃ out, emitFuel 2 witnessBus .agentThinking = some out ∧
      (∀ h ∈ witnessBus MothEvent.agentThinking.tag, ∀ m,
        h .agentThinking = .threw m → MothEvent.systemError m false ∈ out.1) ∧
      (∀ h ∈ witnessBus MothEvent.agentThinking.tag, ∀ m,
        h .agentThinking = .rejectedAsync m → MothEvent.systemError m false ∈ out.2) :=
  emit_converts_handler_errors witnessBus .agentThinking
    (by
      intro h hm m
      simp [witnessBus] at hm
      subst hm
      rfl)

/-- C8: `processMessage` called while the loop is not idle rejects
immediately with a single recoverable `agent:error` event, leaving the
history and the state untouched. -/
theorem processMessage_busy_rejects (cfg : AgentConfig) (tools : List ToolSpec)
    (provider : Nat → List ProviderEvent) (envs : Nat → ExecEnv)
    (st : LoopSt) (userMessage : String) (h : st.state ≠ .idle) :
    processMessage cfg tools provider envs st userMessage =
      (st, [.agentError "Agent is busy. Wait for current turn to complete." true]) := by
  unfold processMessage
  rw [if_pos h]

/-- Witness for `processMessage_busy_rejects` in state `calling_model`. -/
theorem processMessage_busy_rejects_witness :
    busySt.state ≠ .idle ∧
      processMessage cfg5 [] provider5 envs5 busySt "hi" =
        (busySt, [.agentError "Agent is busy. Wait for current turn to complete." true]) :=
  ⟨by decide, processMessage_busy_rejects cfg5 [] provider5 envs5 busySt "hi" (by decide)⟩

/-- C4: every possible terminal outcome of `executeTool` — unknown tool,
validation failure, approval denial, timeout, success, tool-level failure,
unexpected exception — publishes exactly one `tool:complete` event (which
carries the elapsed duration and the error flag). -/
theorem executeTool_one_complete (cfg : AgentConfig) (tools : List ToolSpec)
    (toolId toolName : String) (input : Json) (env : ExecEnv) (st : LoopSt) :
    (executeToolM cfg tools toolId toolName input env st).2.2.countP isToolCompleteE = 1 := by
  unfold executeToolM
  cases hfind : tools.find? (fun t => t.name = toolName) with
  | none => simp [List.countP_cons, List.countP_nil, isToolCompleteE]
  | some tool =>
    simp only [hfind]
    cases hval : validateToolInput tool.inputSchema input with
    | mk valid errors =>
      by_cases hv : ¬ valid = true
      · rw [if_pos hv]
        simp [List.countP_cons, List.countP_nil, isToolCompleteE]
      · rw [if_neg hv]
        by_cases hconf : tool.requiresConfirmation = true ∧ cfg.confirmDestructive = true
        · rw [if_pos hconf]
          cases happr : env.approvalDecision with
          | false =>
            simp only [Bool.not_false, if_pos]
            simp [List.countP_cons, List.countP_nil, List.countP_append, isToolCompleteE]
          | true =>
            simp only [Bool.not_true]
            cases hout : env.outcome <;>
              simp [List.countP_cons, List.countP_nil, List.countP_append, isToolCompleteE]
        · rw [if_neg hconf]
          cases hout : env.outcome <;>
            simp [List.countP_cons, List.countP_nil, List.countP_append, isToolCompleteE]

/-- C5: with `maxTurns = 2` and a provider that always returns exactly one
tool call and no text, `processMessage` ends idle with 5 history messages
(the initial user message, 2 assistant messages, 2 tool-result wrapper
messages) and publishes exactly one `agent:error`, the recoverable
max-turns circuit breaker. -/
theorem maxTurns_scenario :
    c5Run.1.state = .idle ∧
      c5Run.1.history.length = 5 ∧
      c5Run.1.history.countP isAssistantMsg = 2 ∧
      c5Run.1.history.countP isToolResultWrapper = 2 ∧
      c5Run.1.history.head? = some { role := .user, content := .str "go" } ∧
      c5Run.2.countP isAgentErrorE = 1 ∧
      c5Run.2.countP (isMaxTurnsErrorE 2) = 1 := by
  decide

theorem totalEstimate_cons (m : ChatMessage) (l : List ChatMessage) :
    totalEstimate (m :: l) = estimateTokens m + totalEstimate l := by
  simp [totalEstimate]

theorem trimLoop_spec (budget : Nat) :
    ∀ fuel (h : List ChatMessage) (t r : Nat),
      h.length ≤ fuel →
      t = totalEstimate h →
      ∃ h2 t2 r2, trimLoop budget fuel h t r = (h2, t2, r2) ∧
        t2 = totalEstimate h2 ∧
        r ≤ r2 ∧
        h2 = h.take 1 ++ h.drop (1 + (r2 - r)) ∧
        (h2.length ≤ 2 ∨ 5 * t2 ≤ 4 * budget) := by
  intro fuel
  induction fuel with
  | zero =>
    intro h t r hlen ht
    have hnil : h = [] := List.length_eq_zero.mp (Nat.le_zero.mp hlen)
    subst hnil
    exact ⟨[], t, r, rfl, ht, le_refl r, by simp, Or.inl (by simp)⟩
  | succ fuel ih =>
    intro h t r hlen ht
    by_cases hg : h.length > 2 ∧ 5 * t > 4 * budget
    · match h, hg with
      | first :: second :: rest, hg =>
        have hstep : trimLoop budget (fuel + 1) (first :: second :: rest) t r =
            trimLoop budget fuel (first :: rest) (t - estimateTokens second) (r + 1) := by
          conv_lhs => unfold trimLoop
          rw [if_pos hg]
        have hlen2 : (first :: rest).length ≤ fuel := by
          simp at hlen ⊢; omega
        have ht2 : t - estimateTokens second = totalEstimate (first :: rest) := by
          rw [totalEstimate_cons, totalEstimate_cons] at ht
          rw [totalEstimate_cons]
          omega
        rcases ih (first :: rest) (t - estimateTokens second) (r + 1) hlen2 ht2 with
          ⟨h2, t2, r2, hEq, hT, hR, hStruct, hEnd⟩
        refine ⟨h2, t2, r2, by rw [hstep, hEq], hT, by omega, ?_, hEnd⟩
        rw [hStruct]
        have hidx : 1 + (r2 - r) = (r2 - (r + 1) + 1) + 1 := by omega
        have h1k : 1 + (r2 - (r + 1)) = r2 - (r + 1) + 1 := by omega
        rw [hidx, h1k]
        simp [List.drop_succ_cons]
    · refine ⟨h, t, r, ?_, ht, le_refl r, ?_, ?_⟩
      · unfold trimLoop
        rw [if_neg hg]
      · cases h <;> simp
      · rw [not_and_or] at hg
        rcases hg with hg | hg
        · exact Or.inl (by omega)
        · exact Or.inr (by omega)

/-- C9 counterexample: a two-message history far over budget. Trimming
runs (the total exceeds the budget) but removes nothing — the loop stops
at two messages — so afterwards the estimated total is NOT at most 80% of
the budget, and no `context_trimmed` event is published. -/
theorem trimContext_two_big_messages_stay_over :
    totalEstimate [bigMsg, bigMsg] > trimCfgSmall.contextWindowTokens ∧
      trimContextIfNeeded trimCfgSmall [bigMsg, bigMsg] = ([bigMsg, bigMsg], []) ∧
      5 * totalEstimate [bigMsg, bigMsg] > 4 * trimCfgSmall.contextWindowTokens := by
  decide

/-- C9 (amended): whenever trimming runs on a history whose estimate
exceeds the budget, afterwards the anchor message is still first and the
removed messages are exactly the ones that followed it; the estimated
total is at most 80% of the budget UNLESS only two messages remain; and a
`context_trimmed` event reporting exactly the removed count is published
iff at least one message was removed. -/
theorem trimContext_spec (cfg : AgentConfig) (history : List ChatMessage)
    (hover : totalEstimate history > cfg.contextWindowTokens) :
    ∃ h2 removed,
      trimContextIfNeeded cfg history =
        (h2, if removed > 0 then [.sessionContextTrimmed removed] else []) ∧
      h2 = history.take 1 ++ history.drop (1 + removed) ∧
      (h2.length ≤ 2 ∨ 5 * totalEstimate h2 ≤ 4 * cfg.contextWindowTokens) := by
  have hne : history ≠ [] := by
    intro hnil
    subst hnil
    simp [totalEstimate] at hover
  obtain ⟨first, tail, hhist⟩ := List.exists_cons_of_ne_nil hne
  subst hhist
  rcases trimLoop_spec cfg.contextWindowTokens (first :: tail).length (first :: tail)
      (totalEstimate (first :: tail)) 0 (le_refl _) rfl with
    ⟨h2, t2, r2, hEq, hT, hR, hStruct, hEnd⟩
  have hhead : h2.head? = some first := by
    rw [hStruct]
    simp
  refine ⟨h2, r2, ?_, by simpa using hStruct, ?_⟩
  · unfold trimContextIfNeeded
    rw [if_neg (by omega : ¬ totalEstimate (first :: tail) ≤ cfg.contextWindowTokens)]
    rw [hEq]
    simp only [List.head?_cons, hhead, ne_eq, not_true_eq_false, if_false]
    by_cases hr : r2 > 0 <;> simp [hr]
  · rcases hEnd with hcase | hcase
    · exact Or.inl hcase
    · exact Or.inr (by omega)

/-- Witness for `trimContext_spec`: a four-message history (1+10+10+2
estimated tokens) against a budget of 10. -/
theorem trimContext_spec_witness :
    totalEstimate wHistory > wCfg.contextWindowTokens ∧
      (∃ h2 removed,
        trimContextIfNeeded wCfg wHistory =
          (h2, if removed > 0 then [MothEvent.sessionContextTrimmed removed] else []) ∧
        h2 = wHistory.take 1 ++ wHistory.drop (1 + removed) ∧
        (h2.length ≤ 2 ∨ 5 * totalEstimate h2 ≤ 4 * wCfg.contextWindowTokens)) :=
  ⟨by decide, trimContext_spec wCfg wHistory (by decide)⟩

end Moth
